import Mathlib

set_option maxRecDepth 8000

/- Shallow embedding of the Anki Cards plugin core (main.ts): the card data
   model, the fenced-block parser, the content-hash id generator, the store
   merger, the review selector and the SM-2-style scheduler.  JS numbers are
   modelled by exact rationals, the JS 32-bit integer coercion by toInt32,
   and possibly-undefined object fields by Option.  JS falsiness of a number
   field (undefined or 0) is modelled by an explicit match. -/

namespace AnkiCards

/-- JS ToInt32 coercion (the effect of the bitwise operators): wrap an
integer into the range [-2^31, 2^31). -/
def toInt32 (n : ℤ) : ℤ := (n + 2 ^ 31) % 2 ^ 32 - 2 ^ 31

/-- JS Math.round on exact rationals: round half toward positive infinity. -/
def jsRound (q : ℚ) : ℤ := ⌊q + 1 / 2⌋

/-- The plugin settings object (interface AnkiPluginSettings in main.ts). -/
structure AnkiPluginSettings where
  cardsPerSession : ℕ
  newCardsPerDay : ℕ
  reviewsPerDay : ℕ
  showSourceFile : Bool
  enableMarkdownRendering : Bool
  easyBonus : ℚ
  intervalModifier : ℚ
  maxInterval : ℚ
  darkModeButtons : Bool
  enableAutomaticIndexing : Bool
deriving DecidableEq

/-- DEFAULT_SETTINGS from main.ts. -/
def DEFAULT_SETTINGS : AnkiPluginSettings :=
  { cardsPerSession := 5
    newCardsPerDay := 10
    reviewsPerDay := 50
    showSourceFile := true
    enableMarkdownRendering := true
    easyBonus := 1.3
    intervalModifier := 1.0
    maxInterval := 365
    darkModeButtons := true
    enableAutomaticIndexing := true }

/-- A card (interface AnkiCard in main.ts).  The five scheduling fields are
optional in the source and so are Options here. -/
structure AnkiCard where
  id : String
  front : String
  back : String
  sourceFile : String
  position : ℕ
  lastReviewed : Option ℚ
  nextReview : Option ℚ
  easeFactor : Option ℚ
  interval : Option ℚ
  reviewCount : Option ℚ
deriving DecidableEq

/-- The ease factor after the initialize-if-absent step
`if (!card.easeFactor) card.easeFactor = 2.5` (undefined and 0 are both
falsy). -/
def ease0Of (card : AnkiCard) : ℚ :=
  match card.easeFactor with
  | none => 2.5
  | some e => if e = 0 then 2.5 else e

/-- The interval after the initialize-if-absent step
`if (!card.interval) card.interval = 0`. -/
def interval0Of (card : AnkiCard) : ℚ :=
  match card.interval with
  | none => 0
  | some i => if i = 0 then 0 else i

/-- The review count after the initialize-if-absent step
`if (!card.reviewCount) card.reviewCount = 0`. -/
def reviewCount0Of (card : AnkiCard) : ℚ :=
  match card.reviewCount with
  | none => 0
  | some n => if n = 0 then 0 else n

/-- The ease-factor update switch of calculateNextReview
(1 = Hard, 2 = Good, 3 = Easy; any other rating leaves the ease unchanged,
like the switch with no default case). -/
def easeAfterRating (easeFactor0 : ℚ) (difficultyRating : ℤ)
    (settings : AnkiPluginSettings) : ℚ :=
  if difficultyRating = 1 then max 1.3 (easeFactor0 - 0.15)
  else if difficultyRating = 3 then
    min 2.5 (easeFactor0 + 0.15 * settings.easyBonus)
  else easeFactor0

/-- calculateNextReview from main.ts as a pure function of the card, the
rating, the settings and the current time (Date.now()). -/
def calculateNextReview (card : AnkiCard) (difficultyRating : ℤ)
    (settings : AnkiPluginSettings) (now : ℚ) : AnkiCard :=
  let easeFactor1 := easeAfterRating (ease0Of card) difficultyRating settings
  let interval1 : ℚ :=
    if interval0Of card = 0 then
      match difficultyRating with
      | 1 => 1
      | 2 => 3
      | 3 => 7
      | _ => interval0Of card
    else
      min ((jsRound (interval0Of card * easeFactor1 *
        settings.intervalModifier) : ℤ) : ℚ) settings.maxInterval
  let millisecondsPerDay : ℚ := 24 * 60 * 60 * 1000
  { card with
    lastReviewed := some now
    reviewCount := some (reviewCount0Of card + 1)
    easeFactor := some easeFactor1
    interval := some interval1
    nextReview := some (now + interval1 * millisecondsPerDay) }

/-- A finite sequence of scheduler calls: each step carries the rating, the
settings in force for that call and the call's current time. -/
def runReviews (card : AnkiCard) (steps : List (ℤ × AnkiPluginSettings × ℚ)) :
    AnkiCard :=
  steps.foldl (fun c st => calculateNextReview c st.1 st.2.1 st.2.2) card

/-- A freshly indexed card that has never been reviewed. -/
def newCardW : AnkiCard :=
  { id := "card_w"
    front := "Q"
    back := "A"
    sourceFile := "f"
    position := 0
    lastReviewed := none
    nextReview := none
    easeFactor := none
    interval := none
    reviewCount := none }

lemma calculateNextReview_easeFactor (card : AnkiCard) (r : ℤ)
    (s : AnkiPluginSettings) (now : ℚ) :
    (calculateNextReview card r s now).easeFactor =
      some (easeAfterRating (ease0Of card) r s) := rfl

lemma easeAfterRating_bounds (e : ℚ) (r : ℤ) (s : AnkiPluginSettings)
    (h1 : 1.3 ≤ e) (h2 : e ≤ 2.5) (hb : 1 ≤ s.easyBonus) :
    1.3 ≤ easeAfterRating e r s ∧ easeAfterRating e r s ≤ 2.5 := by
  unfold easeAfterRating
  split_ifs with hr1 hr3
  · exact ⟨le_max_left _ _, max_le (by norm_num) (by linarith)⟩
  · have h0b : (0 : ℚ) ≤ 0.15 * s.easyBonus := by nlinarith
    exact ⟨le_min (by norm_num) (by linarith), min_le_left _ _⟩
  · exact ⟨h1, h2⟩

lemma runReviews_ease_invariant (steps : List (ℤ × AnkiPluginSettings × ℚ)) :
    ∀ card : AnkiCard,
      (∃ e, card.easeFactor = some e ∧ 1.3 ≤ e ∧ e ≤ 2.5) →
      (∀ st ∈ steps, 1 ≤ st.2.1.easyBonus) →
      ∃ e, (runReviews card steps).easeFactor = some e ∧ 1.3 ≤ e ∧ e ≤ 2.5 := by
  induction steps with
  | nil =>
    intro card h _
    simpa [runReviews] using h
  | cons st rest ih =>
    rintro card ⟨e, he, h1, h2⟩ hb
    have hstep : runReviews card (st :: rest) =
        runReviews (calculateNextReview card st.1 st.2.1 st.2.2) rest := rfl
    rw [hstep]
    apply ih
    · have h0 : ease0Of card = e := by
        have hne : ¬ e = 0 := by intro h; rw [h] at h1; norm_num at h1
        simp [ease0Of, he, hne]
      have hbd := easeAfterRating_bounds e st.1 st.2.1 h1 h2
        (hb st (List.mem_cons_self _ _))
      refine ⟨easeAfterRating (ease0Of card) st.1 st.2.1,
        calculateNextReview_easeFactor .., ?_, ?_⟩
      · rw [h0]; exact hbd.1
      · rw [h0]; exact hbd.2
    · intro st' hst'
      exact hb st' (List.mem_cons_of_mem _ hst')

/-- C2: for every card whose ease factor is initially unset or 2.5 and every
finite nonempty sequence of scheduler calls with ratings in {1, 2, 3} and
easyBonus in [1, 2] at each call, the ease factor after the calls satisfies
1.3 ≤ easeFactor ≤ 2.5 (every prefix of such a sequence is itself such a
sequence, so the bound holds after each call). -/
theorem scheduler_ease_bounds (card : AnkiCard)
    (h0 : card.easeFactor = none ∨ card.easeFactor = some 2.5)
    (steps : List (ℤ × AnkiPluginSettings × ℚ))
    (hsteps : ∀ st ∈ steps, (st.1 = 1 ∨ st.1 = 2 ∨ st.1 = 3) ∧
      1 ≤ st.2.1.easyBonus ∧ st.2.1.easyBonus ≤ 2)
    (hne : steps ≠ []) :
    ∃ e, (runReviews card steps).easeFactor = some e ∧ 1.3 ≤ e ∧ e ≤ 2.5 := by
  match steps, hne with
  | st :: rest, _ =>
    have hE : ease0Of card = 2.5 := by
      rcases h0 with h | h <;> simp [ease0Of, h]
    have hb : 1 ≤ st.2.1.easyBonus := (hsteps st (List.mem_cons_self _ _)).2.1
    have hbd := easeAfterRating_bounds 2.5 st.1 st.2.1 (by norm_num)
      (by norm_num) hb
    have hstep : runReviews card (st :: rest) =
        runReviews (calculateNextReview card st.1 st.2.1 st.2.2) rest := rfl
    rw [hstep]
    apply runReviews_ease_invariant
    · refine ⟨easeAfterRating (ease0Of card) st.1 st.2.1,
        calculateNextReview_easeFactor .., ?_, ?_⟩
      · rw [hE]; exact hbd.1
      · rw [hE]; exact hbd.2
    · intro st' hst'
      exact (hsteps st' (List.mem_cons_of_mem _ hst')).2.1

theorem scheduler_ease_bounds_witness :
    ∃ e, (runReviews newCardW [(3, DEFAULT_SETTINGS, 0)]).easeFactor = some e ∧
      1.3 ≤ e ∧ e ≤ 2.5 :=
  scheduler_ease_bounds newCardW (Or.inl rfl) [(3, DEFAULT_SETTINGS, 0)]
    (by
      intro st hst
      simp only [List.mem_singleton] at hst
      subst hst
      refine ⟨Or.inr (Or.inr rfl), ?_, ?_⟩ <;> norm_num [DEFAULT_SETTINGS])
    (by simp)

/-- C3: a card whose interval is 0 or unset before the call gets interval
exactly 1 day when rated Hard, 3 days when rated Good and 7 days when rated
Easy, for every settings object and current time and independently of the
card's ease factor (the card is universally quantified). -/
theorem firstReview_fixed_intervals (card : AnkiCard)
    (h : card.interval = none ∨ card.interval = some 0)
    (s : AnkiPluginSettings) (now : ℚ) :
    (calculateNextReview card 1 s now).interval = some 1 ∧
    (calculateNextReview card 2 s now).interval = some 3 ∧
    (calculateNextReview card 3 s now).interval = some 7 := by
  have h0 : interval0Of card = 0 := by
    rcases h with h | h <;> simp [interval0Of, h]
  refine ⟨?_, ?_, ?_⟩ <;> simp [calculateNextReview, h0]

theorem firstReview_fixed_intervals_witness :
    (calculateNextReview newCardW 1 DEFAULT_SETTINGS 0).interval = some 1 ∧
    (calculateNextReview newCardW 2 DEFAULT_SETTINGS 0).interval = some 3 ∧
    (calculateNextReview newCardW 3 DEFAULT_SETTINGS 0).interval = some 7 :=
  firstReview_fixed_intervals newCardW (Or.inl rfl) DEFAULT_SETTINGS 0

/-- The card of the worked example in the spec: interval 3, ease factor 2.5. -/
def c4Card : AnkiCard :=
  { id := "card_c4"
    front := "Q"
    back := "A"
    sourceFile := "f"
    position := 0
    lastReviewed := some 0
    nextReview := some 0
    easeFactor := some 2.5
    interval := some 3
    reviewCount := some 1 }

/-- C4: a card with nonzero interval gets
round(interval * easeFactor * intervalModifier) — with the ease factor value
after this call's ease update — clamped to maxInterval; and in particular the
example card (interval 3, ease 2.5, modifier 1.0) rated Good gets interval
exactly 8 with the ease factor unchanged at 2.5. -/
theorem subsequentReview_interval (card : AnkiCard) (i : ℚ)
    (hi : card.interval = some i) (hne : i ≠ 0) (r : ℤ)
    (s : AnkiPluginSettings) (now : ℚ) :
    (calculateNextReview card r s now).interval =
      some (min ((jsRound (i * easeAfterRating (ease0Of card) r s *
        s.intervalModifier) : ℤ) : ℚ) s.maxInterval) ∧
    (calculateNextReview c4Card 2 DEFAULT_SETTINGS now).interval = some 8 ∧
    (calculateNextReview c4Card 2 DEFAULT_SETTINGS now).easeFactor =
      some 2.5 := by
  have h0 : interval0Of card = i := by simp [interval0Of, hi, hne]
  refine ⟨?_, ?_, ?_⟩
  · simp [calculateNextReview, h0, hne]
  · have hr : jsRound ((15 : ℚ) / 2) = 8 := by
      have h8 : ((15 : ℚ) / 2) + 1 / 2 = 8 := by norm_num
      rw [jsRound, h8]
      norm_num
    norm_num [calculateNextReview, interval0Of, c4Card, ease0Of,
      easeAfterRating, DEFAULT_SETTINGS, hr]
  · simp [calculateNextReview_easeFactor, ease0Of, c4Card, easeAfterRating]

theorem subsequentReview_interval_witness :
    (calculateNextReview c4Card 2 DEFAULT_SETTINGS 0).interval =
      some (min ((jsRound (3 * easeAfterRating (ease0Of c4Card) 2
        DEFAULT_SETTINGS * DEFAULT_SETTINGS.intervalModifier) : ℤ) : ℚ)
        DEFAULT_SETTINGS.maxInterval) ∧
    (calculateNextReview c4Card 2 DEFAULT_SETTINGS 0).interval = some 8 ∧
    (calculateNextReview c4Card 2 DEFAULT_SETTINGS 0).easeFactor = some 2.5 :=
  subsequentReview_interval c4Card 3 rfl (by norm_num) 2 DEFAULT_SETTINGS 0

/-- C5: for every card, rating in {1, 2, 3} and settings with maxInterval in
[30, 1000], the interval after a scheduler call is at most maxInterval. -/
theorem scheduler_interval_le_maxInterval (card : AnkiCard) (r : ℤ)
    (hr : r = 1 ∨ r = 2 ∨ r = 3) (s : AnkiPluginSettings)
    (h30 : 30 ≤ s.maxInterval) (_h1000 : s.maxInterval ≤ 1000) (now : ℚ) :
    ∃ i, (calculateNextReview card r s now).interval = some i ∧
      i ≤ s.maxInterval := by
  by_cases h0 : interval0Of card = 0
  · rcases hr with h | h | h <;> subst h
    · exact ⟨1, by simp [calculateNextReview, h0], by linarith⟩
    · exact ⟨3, by simp [calculateNextReview, h0], by linarith⟩
    · exact ⟨7, by simp [calculateNextReview, h0], by linarith⟩
  · refine ⟨min ((jsRound (interval0Of card *
      easeAfterRating (ease0Of card) r s * s.intervalModifier) : ℤ) : ℚ)
      s.maxInterval, ?_, min_le_right _ _⟩
    simp [calculateNextReview, h0]

theorem scheduler_interval_le_maxInterval_witness :
    ∃ i, (calculateNextReview newCardW 1 DEFAULT_SETTINGS 0).interval =
      some i ∧ i ≤ DEFAULT_SETTINGS.maxInterval :=
  scheduler_interval_le_maxInterval newCardW 1 (Or.inl rfl) DEFAULT_SETTINGS
    (by norm_num [DEFAULT_SETTINGS]) (by norm_num [DEFAULT_SETTINGS]) 0

/- ——— The parser (findAnkiCardsInContent) and the id hash (generateCardId).
   JS strings are handled as lists of characters; the regexes of the source
   are modelled operationally: splitting on the literal separator, scanning
   for the fenced-block markers with a lazy (first-closing-fence) body, and
   the lookahead-guarded blank-line split. ——— -/

/-- Does the second list start with the first one? -/
def listStartsWith : List Char → List Char → Bool
  | [], _ => true
  | _ :: _, [] => false
  | p :: ps, c :: cs => p == c && listStartsWith ps cs

/-- Split around the first occurrence of sep: the part strictly before and
the part strictly after, or none when sep does not occur. -/
def splitFirst (sep : List Char) : List Char → Option (List Char × List Char)
  | [] => none
  | c :: t =>
    if listStartsWith sep (c :: t) then some ([], (c :: t).drop sep.length)
    else
      match splitFirst sep t with
      | some (a, b) => some (c :: a, b)
      | none => none

/-- Does sep occur as a contiguous sublist of s? -/
def containsSub (sep s : List Char) : Bool := (splitFirst sep s).isSome

/-- JS String.prototype.split on a literal separator: split at each
leftmost non-overlapping occurrence (fuel variant; one unit of fuel per
produced part suffices since every split consumes at least one char). -/
def splitOnSepF : ℕ → List Char → List Char → List (List Char)
  | 0, _, s => [s]
  | fuel + 1, sep, s =>
    match splitFirst sep s with
    | none => [s]
    | some (a, b) => a :: splitOnSepF fuel sep b

/-- JS String.prototype.split on a literal separator. -/
def splitOnSep (sep s : List Char) : List (List Char) :=
  splitOnSepF (s.length + 1) sep s

/-- The whitespace characters relevant to JS String.prototype.trim for the
card texts handled here. -/
def isJsSpace (c : Char) : Bool :=
  c == ' ' || c == '\n' || c == '\t' || c == '\r'

/-- JS String.prototype.trim. -/
def trimL (s : List Char) : List Char :=
  ((s.dropWhile isJsSpace).reverse.dropWhile isJsSpace).reverse

/-- Pack a character list back into a String. -/
def listToStr (s : List Char) : String := String.mk s

/-- One digit of Number.prototype.toString(36): 0-9 then a-z. -/
def base36Digit (n : ℕ) : Char :=
  if n < 10 then Char.ofNat (48 + n) else Char.ofNat (87 + n)

/-- Number.prototype.toString(36) for naturals (fuel variant; the value
shrinks by a factor 36 each step, so n + 1 units of fuel suffice). -/
def natToBase36F : ℕ → ℕ → List Char
  | 0, _ => []
  | fuel + 1, n =>
    if n < 36 then [base36Digit n]
    else natToBase36F fuel (n / 36) ++ [base36Digit (n % 36)]

/-- Number.prototype.toString(36) for naturals. -/
def natToBase36 (n : ℕ) : List Char := natToBase36F (n + 1) n

/-- generateCardId from main.ts: join the three fields with a delimiter,
run the 32-bit rolling hash (hash = ((hash << 5) - hash) + charCode, wrapped
to a signed 32-bit integer by hash = hash & hash), then render the absolute
value in base 36 behind a fixed tag.  Character codes are the UTF-16 units,
which coincide with Char.toNat on the basic plane. -/
def generateCardId (front back sourceFile : String) : String :=
  let contentString := front ++ "|" ++ back ++ "|" ++ sourceFile
  let hash : ℤ := contentString.toList.foldl
    (fun hash c => toInt32 (toInt32 (hash * 32) - hash + (c.toNat : ℤ))) 0
  "card_" ++ listToStr (natToBase36 hash.natAbs)

/-- The question/answer separator of the regex /\n\?\n/. -/
def qaSep : List Char := '\n' :: '?' :: '\n' :: []

/-- The opening fence of the block regex. -/
def blockOpen : List Char := "```anki\n".toList

/-- The closing fence of the block regex. -/
def blockClose : List Char := "\n```".toList

/-- All matches of /```anki\n([\s\S]*?)\n```/g: each match pairs the match
index (the card position) with the lazily captured block body, and scanning
resumes after the match (fuel variant; at least one char is consumed per
step). -/
def scanBlocksF : ℕ → List Char → ℕ → List (ℕ × List Char)
  | 0, _, _ => []
  | fuel + 1, s, pos =>
    match s with
    | [] => []
    | _ :: t =>
      if listStartsWith blockOpen s then
        match splitFirst blockClose (s.drop blockOpen.length) with
        | some (inner, rest) =>
          (pos, inner) :: scanBlocksF fuel rest
            (pos + blockOpen.length + inner.length + blockClose.length)
        | none => []
      else scanBlocksF fuel t (pos + 1)

/-- All ```anki fenced blocks of a document with their match positions. -/
def scanBlocks (s : List Char) : List (ℕ × List Char) :=
  scanBlocksF (s.length + 1) s 0

/-- The lookahead (?=[\s\S]+?\n\?\n) of the sub-block splitting regex,
applied to the text following a blank line: the separator must occur with at
least one character before it. -/
def lookaheadHasSep (r : List Char) : Bool := containsSub qaSep (r.drop 1)

/-- blockContent.split(/\n\n(?=[\s\S]+?\n\?\n)/g): split at each blank line
(two consecutive newlines) whose following text satisfies the lookahead;
scanning advances one character when the lookahead fails, as the regex
engine does (fuel variant; at least one char is consumed per step). -/
def splitSubAuxF : ℕ → List Char → List Char → List (List Char)
  | 0, acc, s => [acc.reverse ++ s]
  | fuel + 1, acc, s =>
    match s with
    | [] => [acc.reverse]
    | c :: t =>
      if c == '\n' then
        match t with
        | '\n' :: r =>
          if lookaheadHasSep r then acc.reverse :: splitSubAuxF fuel [] r
          else splitSubAuxF fuel (c :: acc) t
        | _ => splitSubAuxF fuel (c :: acc) t
      else splitSubAuxF fuel (c :: acc) t

/-- Split a block body into candidate card sub-blocks. -/
def splitSubBlocks (s : List Char) : List (List Char) :=
  splitSubAuxF (s.length + 1) [] s

/-- The per-sub-block step of findAnkiCardsInContent: split on the
question/answer separator and push a card exactly when that yields two
parts (the source checks parts.length === 2 and nothing else). -/
def cardsFromSub (fileName : String) (position : ℕ)
    (cardContent : List Char) : List AnkiCard :=
  match splitOnSep qaSep cardContent with
  | [p0, p1] =>
    [{ id := generateCardId (listToStr (trimL p0)) (listToStr (trimL p1))
         fileName
       front := listToStr (trimL p0)
       back := listToStr (trimL p1)
       sourceFile := fileName
       position := position
       lastReviewed := none
       nextReview := none
       easeFactor := none
       interval := none
       reviewCount := none }]
  | _ => []

/-- findAnkiCardsInContent from main.ts. -/
def findAnkiCardsInContent (content fileName : String) : List AnkiCard :=
  (scanBlocks content.toList).flatMap fun pb =>
    (splitSubBlocks pb.2).flatMap fun sub => cardsFromSub fileName pb.1 sub

/- ——— The store merger (the merge loop and save guard of indexAnkiCards)
   and the per-card scheduling-state preservation. ——— -/

/-- The existingCards record of indexAnkiCards: forEach over the previous
store assigns existingCards[card.id] = card, so a later card with the same
id overwrites an earlier one — the lookup returns the last match. -/
def buildLookup (cards : List AnkiCard) (cardId : String) : Option AnkiCard :=
  cards.reverse.find? fun c => c.id == cardId

/-- The per-card merge step of indexAnkiCards: copy the five scheduling
fields from the existing card when the id is known, otherwise set the
defaults (easeFactor 2.5, interval 0, reviewCount 0; lastReviewed and
nextReview are not touched). -/
def mergeCard (lookup : String → Option AnkiCard) (card : AnkiCard) :
    AnkiCard :=
  match lookup card.id with
  | some existingCard =>
    { card with
      lastReviewed := existingCard.lastReviewed
      nextReview := existingCard.nextReview
      easeFactor := existingCard.easeFactor
      interval := existingCard.interval
      reviewCount := existingCard.reviewCount }
  | none =>
    { card with
      easeFactor := some 2.5
      interval := some 0
      reviewCount := some 0 }

/-- The merge applied to the cards parsed from one file. -/
def mergeCards (cardsInFile existing : List AnkiCard) : List AnkiCard :=
  cardsInFile.map (mergeCard (buildLookup existing))

/-- All cards parsed from a list of (content, fileName) documents. -/
def parsedAll : List (String × String) → List AnkiCard
  | [] => []
  | d :: rest => findAnkiCardsInContent d.1 d.2 ++ parsedAll rest

/-- The allCards accumulation loop of indexAnkiCards: per file, parse, merge
against the previous store when anything was found, and concatenate. -/
def indexAllCards : List (String × String) → List AnkiCard → List AnkiCard
  | [], _ => []
  | d :: rest, existing =>
    let cardsInFile := findAnkiCardsInContent d.1 d.2
    (if cardsInFile.length > 0 then mergeCards cardsInFile existing else [])
      ++ indexAllCards rest existing

/-- The persisted card list after an indexing pass: indexAnkiCards saves
allCards only when it is non-empty (if (allCards.length > 0)), otherwise
the previous store is left untouched. -/
def indexAnkiCards (docs : List (String × String))
    (existing : List AnkiCard) : List AnkiCard :=
  let allCards := indexAllCards docs existing
  if allCards.length > 0 then allCards else existing

lemma mergeCard_id (lookup : String → Option AnkiCard) (card : AnkiCard) :
    (mergeCard lookup card).id = card.id := by
  unfold mergeCard
  split <;> rfl

lemma mem_cardsFromSub {fileName : String} {pos : ℕ} {sub : List Char}
    {c : AnkiCard} (hc : c ∈ cardsFromSub fileName pos sub) :
    c.id = generateCardId c.front c.back c.sourceFile ∧
    c.sourceFile = fileName ∧ c.lastReviewed = none ∧ c.nextReview = none ∧
    c.easeFactor = none ∧ c.interval = none ∧ c.reviewCount = none := by
  unfold cardsFromSub at hc
  split at hc
  · simp only [List.mem_singleton] at hc
    subst hc
    exact ⟨rfl, rfl, rfl, rfl, rfl, rfl, rfl⟩
  · simp at hc

lemma parsed_card_shape (content fileName : String) (c : AnkiCard)
    (hc : c ∈ findAnkiCardsInContent content fileName) :
    c.id = generateCardId c.front c.back c.sourceFile ∧
    c.sourceFile = fileName ∧ c.lastReviewed = none ∧ c.nextReview = none ∧
    c.easeFactor = none ∧ c.interval = none ∧ c.reviewCount = none := by
  unfold findAnkiCardsInContent at hc
  obtain ⟨pb, _, hc2⟩ := List.mem_flatMap.mp hc
  obtain ⟨sub, _, hc3⟩ := List.mem_flatMap.mp hc2
  exact mem_cardsFromSub hc3

/-- The first card of the witness documents, as the parser constructs it. -/
def wCard1 : AnkiCard :=
  { id := generateCardId "Q" "A" "f"
    front := "Q"
    back := "A"
    sourceFile := "f"
    position := 0
    lastReviewed := none
    nextReview := none
    easeFactor := none
    interval := none
    reviewCount := none }

/-- The same card text parsed at position 3 of another document. -/
def wCard2 : AnkiCard :=
  { id := generateCardId "Q" "A" "f"
    front := "Q"
    back := "A"
    sourceFile := "f"
    position := 3
    lastReviewed := none
    nextReview := none
    easeFactor := none
    interval := none
    reviewCount := none }

/-- C1: merging a freshly parsed card against the persisted list copies the
five scheduling fields from the (last) persisted card with the same id when
one exists, and otherwise initializes easeFactor 2.5, interval 0,
reviewCount 0 with lastReviewed and nextReview left unset. -/
theorem merge_scheduling_state (content fileName : String)
    (old : List AnkiCard) (c : AnkiCard)
    (hc : c ∈ findAnkiCardsInContent content fileName) :
    mergeCard (buildLookup old) c ∈
      mergeCards (findAnkiCardsInContent content fileName) old ∧
    ((∃ e ∈ old, e.id = c.id) →
      ∃ e ∈ old, e.id = c.id ∧
        (mergeCard (buildLookup old) c).lastReviewed = e.lastReviewed ∧
        (mergeCard (buildLookup old) c).nextReview = e.nextReview ∧
        (mergeCard (buildLookup old) c).easeFactor = e.easeFactor ∧
        (mergeCard (buildLookup old) c).interval = e.interval ∧
        (mergeCard (buildLookup old) c).reviewCount = e.reviewCount) ∧
    ((∀ e ∈ old, e.id ≠ c.id) →
      (mergeCard (buildLookup old) c).easeFactor = some 2.5 ∧
      (mergeCard (buildLookup old) c).interval = some 0 ∧
      (mergeCard (buildLookup old) c).reviewCount = some 0 ∧
      (mergeCard (buildLookup old) c).lastReviewed = none ∧
      (mergeCard (buildLookup old) c).nextReview = none) := by
  refine ⟨List.mem_map_of_mem _ hc, ?_, ?_⟩
  · rintro ⟨e0, he0, hid0⟩
    rcases hlk : buildLookup old c.id with _ | e
    · exfalso
      unfold buildLookup at hlk
      have hnone := List.find?_eq_none.mp hlk e0 (List.mem_reverse.mpr he0)
      simp only [beq_iff_eq] at hnone
      exact hnone hid0
    · unfold buildLookup at hlk
      have hmem : e ∈ old := List.mem_reverse.mp (List.mem_of_find?_eq_some hlk)
      have hpred := List.find?_some hlk
      simp only [beq_iff_eq] at hpred
      refine ⟨e, hmem, hpred, ?_, ?_, ?_, ?_, ?_⟩ <;>
        simp [mergeCard, buildLookup, hlk]
  · intro hno
    have hlk : buildLookup old c.id = none := by
      unfold buildLookup
      refine List.find?_eq_none.mpr fun a ha => ?_
      simp only [beq_iff_eq]
      exact hno a (List.mem_reverse.mp ha)
    have hshape := parsed_card_shape content fileName c hc
    refine ⟨?_, ?_, ?_, ?_, ?_⟩ <;>
      simp [mergeCard, hlk, hshape.2.2.1, hshape.2.2.2.1]

theorem merge_scheduling_state_witness :
    (mergeCard (buildLookup []) wCard1).easeFactor = some 2.5 ∧
    (mergeCard (buildLookup []) wCard1).interval = some 0 ∧
    (mergeCard (buildLookup []) wCard1).reviewCount = some 0 ∧
    (mergeCard (buildLookup []) wCard1).lastReviewed = none ∧
    (mergeCard (buildLookup []) wCard1).nextReview = none := by
  have h := merge_scheduling_state "```anki\nQ\n?\nA\n```" "f" [] wCard1
    (by decide)
  exact h.2.2 (by intro e he; exact absurd he (List.not_mem_nil e))

lemma indexAllCards_eq (docs : List (String × String))
    (existing : List AnkiCard) :
    indexAllCards docs existing = mergeCards (parsedAll docs) existing := by
  induction docs with
  | nil => rfl
  | cons d rest ih =>
    by_cases h : (findAnkiCardsInContent d.1 d.2).length > 0
    · simp [indexAllCards, parsedAll, h, ih, mergeCards]
    · have he : findAnkiCardsInContent d.1 d.2 = [] := by
        cases hx : findAnkiCardsInContent d.1 d.2 with
        | nil => rfl
        | cons a l => rw [hx] at h; simp at h
      simp [indexAllCards, parsedAll, h, ih, mergeCards, he]

/-- A card of the previous store used by the C7 counterexample. -/
def staleCard : AnkiCard :=
  { id := "card_stale"
    front := "F"
    back := "B"
    sourceFile := "S"
    position := 0
    lastReviewed := some 1
    nextReview := some 2
    easeFactor := some 2.5
    interval := some 3
    reviewCount := some 1 }

/-- C7 counterexample: when the fresh parse yields no cards at all,
indexAnkiCards performs no save, so a previously persisted card whose id
appears nowhere in the (empty) parse is still present in the persisted
store — the claim asserts it would be absent. -/
theorem index_empty_parse_keeps_store :
    parsedAll [] = [] ∧
    indexAnkiCards [] [staleCard] = [staleCard] ∧
    staleCard ∈ indexAnkiCards [] [staleCard] :=
  ⟨rfl, rfl, List.mem_singleton.mpr rfl⟩

/-- C7 (amended): when the fresh parse yields at least one card, the
persisted result is exactly the merged freshly parsed cards and every old
card whose id is absent from the parse is dropped; when the fresh parse
yields no cards, no save happens and the previous store is kept. -/
theorem index_result_drops_absent (docs : List (String × String))
    (old : List AnkiCard) :
    (parsedAll docs ≠ [] →
      indexAnkiCards docs old = mergeCards (parsedAll docs) old ∧
      ∀ e ∈ old, (∀ p ∈ parsedAll docs, p.id ≠ e.id) →
        e ∉ indexAnkiCards docs old) ∧
    (parsedAll docs = [] → indexAnkiCards docs old = old) := by
  have hidx := indexAllCards_eq docs old
  constructor
  · intro hne
    have hlen : (indexAllCards docs old).length > 0 := by
      rw [hidx, mergeCards, List.length_map]
      exact List.length_pos.mpr hne
    have hres : indexAnkiCards docs old = mergeCards (parsedAll docs) old := by
      simp only [indexAnkiCards]
      rw [if_pos hlen, hidx]
    refine ⟨hres, ?_⟩
    intro e he hnid hmem
    rw [hres] at hmem
    obtain ⟨p, hp, hep⟩ := List.mem_map.mp hmem
    have hpe : p.id = e.id := by rw [← hep, mergeCard_id]
    exact hnid p hp hpe
  · intro hnil
    have hempty : indexAllCards docs old = [] := by
      rw [hidx, hnil]; rfl
    simp only [indexAnkiCards]
    rw [hempty]
    simp

/-- A persisted card whose source block has disappeared. -/
def staleCard2 : AnkiCard :=
  { id := "card_old"
    front := "F"
    back := "B"
    sourceFile := "S"
    position := 0
    lastReviewed := none
    nextReview := none
    easeFactor := none
    interval := none
    reviewCount := none }

theorem index_result_drops_absent_witness :
    staleCard2 ∉
      indexAnkiCards [("```anki\nQ\n?\nA\n```", "f")] [staleCard2] := by
  have h := (index_result_drops_absent [("```anki\nQ\n?\nA\n```", "f")]
    [staleCard2]).1 (by decide)
  exact h.2 staleCard2 (List.mem_singleton.mpr rfl) (by decide)

/- ——— C6: which sub-blocks are emitted as cards. ——— -/

/-- C6 counterexample: the document "```anki\n\n?\nParis\n```" has one block
whose single sub-block splits on the separator into exactly two parts of
which the first is EMPTY, and a card (with empty front) is nevertheless
emitted — the claim asserts an empty part produces no card. -/
theorem card_emission_cex :
    scanBlocks ("```anki\n\n?\nParis\n```".toList) =
      [(0, "\n?\nParis".toList)] ∧
    splitSubBlocks ("\n?\nParis".toList) = ["\n?\nParis".toList] ∧
    splitOnSep qaSep ("\n?\nParis".toList) = ["".toList, "Paris".toList] ∧
    (findAnkiCardsInContent "```anki\n\n?\nParis\n```" "Geo").map
      (fun c => (c.front, c.back)) = [("", "Paris")] := by
  refine ⟨by decide, by decide, by decide, by decide⟩

/-- C6 (amended): for every block of a document and every sub-block of that
block, a card is emitted from the sub-block iff splitting it on the
separator yields exactly two parts — which, contrary to the claim, may be
empty; 0, 1 or ≥ 3 parts yield no card (and at most one card is emitted per
sub-block, with no error in any case). -/
theorem card_emission_iff_two_parts (content fileName : String)
    (pb : ℕ × List Char) (_hpb : pb ∈ scanBlocks content.toList)
    (sub : List Char) (_hsub : sub ∈ splitSubBlocks pb.2) :
    (cardsFromSub fileName pb.1 sub ≠ [] ↔
      (splitOnSep qaSep sub).length = 2) ∧
    (cardsFromSub fileName pb.1 sub).length ≤ 1 := by
  rcases hs : splitOnSep qaSep sub with _ | ⟨p0, ps⟩
  · simp [cardsFromSub, hs]
  · rcases ps with _ | ⟨p1, ps2⟩
    · simp [cardsFromSub, hs]
    · rcases ps2 with _ | ⟨p2, ps3⟩
      · simp [cardsFromSub, hs]
      · simp [cardsFromSub, hs]

theorem card_emission_iff_two_parts_witness :
    (cardsFromSub "f" 0 ("Q\n?\nA".toList) ≠ [] ↔
      (splitOnSep qaSep ("Q\n?\nA".toList)).length = 2) ∧
    (cardsFromSub "f" 0 ("Q\n?\nA".toList)).length ≤ 1 :=
  card_emission_iff_two_parts "```anki\nQ\n?\nA\n```" "f"
    (0, "Q\n?\nA".toList) (by decide) ("Q\n?\nA".toList) (by decide)

/- ——— C9: the card id is a pure function of content. ——— -/

/-- C9: any two cards produced by the parser — from any documents, at any
positions — with identical (trimmed) front, back and source file receive
the identical id: the id is generateCardId of exactly those three fields
and of nothing else. -/
theorem cardId_content_determined (c1 c2 : AnkiCard)
    (content1 fileName1 content2 fileName2 : String)
    (h1 : c1 ∈ findAnkiCardsInContent content1 fileName1)
    (h2 : c2 ∈ findAnkiCardsInContent content2 fileName2)
    (hf : c1.front = c2.front) (hb : c1.back = c2.back)
    (hs : c1.sourceFile = c2.sourceFile) :
    c1.id = c2.id := by
  rw [(parsed_card_shape content1 fileName1 c1 h1).1,
    (parsed_card_shape content2 fileName2 c2 h2).1, hf, hb, hs]

theorem cardId_content_determined_witness : wCard1.id = wCard2.id :=
  cardId_content_determined wCard1 wCard2 "```anki\nQ\n?\nA\n```" "f"
    "xy\n```anki\nQ\n?\nA\n```" "f" (by decide) (by decide) rfl rfl rfl

/- ——— C8: the review selector (reviewCards and getRandomSubset). ——— -/

/-- The review pool of reviewCards: the due cards
(!card.nextReview || card.nextReview <= now, where a JS number field is
falsy when undefined or 0) capped by slice(0, reviewsPerDay), or, when no
card is due, the never-reviewed cards (!card.lastReviewed) capped by
slice(0, newCardsPerDay). -/
def reviewPool (cards : List AnkiCard) (now : ℚ)
    (settings : AnkiPluginSettings) : List AnkiCard :=
  let dueCards := cards.filter fun card =>
    match card.nextReview with
    | none => true
    | some t => decide (t = 0) || decide (t ≤ now)
  if dueCards.length = 0 then
    (cards.filter fun card =>
      match card.lastReviewed with
      | none => true
      | some t => decide (t = 0)).take settings.newCardsPerDay
  else dueCards.take settings.reviewsPerDay

/-- getRandomSubset from main.ts takes [...array].sort with a random
comparator — which produces some permutation of the array, modelled here by
quantifying over all permutations — and returns its first size elements. -/
def getRandomSubset (shuffled : List AnkiCard) (size : ℕ) : List AnkiCard :=
  shuffled.take size

/-- The session list of reviewCards: getRandomSubset of the (shuffled) pool
with reviewSize = Math.min(cardsPerSession, pool.length). -/
def selectReviewCards (pool shuffled : List AnkiCard)
    (settings : AnkiPluginSettings) : List AnkiCard :=
  getRandomSubset shuffled (min settings.cardsPerSession pool.length)

/-- C8: whenever the pool is non-empty (otherwise reviewCards returns with
no session), for every outcome of the random shuffle the selection has
length exactly min(cardsPerSession, pool.length), is drawn from the pool
without reusing an entry (a subpermutation), and consists of distinct cards
whenever the pool has no duplicate entries. -/
theorem reviewCards_selection (cards : List AnkiCard) (now : ℚ)
    (settings : AnkiPluginSettings) (shuffled : List AnkiCard)
    (hperm : List.Perm shuffled (reviewPool cards now settings))
    (_hne : reviewPool cards now settings ≠ []) :
    (selectReviewCards (reviewPool cards now settings) shuffled
        settings).length =
      min settings.cardsPerSession (reviewPool cards now settings).length ∧
    List.Subperm
      (selectReviewCards (reviewPool cards now settings) shuffled settings)
      (reviewPool cards now settings) ∧
    ((reviewPool cards now settings).Nodup →
      (selectReviewCards (reviewPool cards now settings) shuffled
        settings).Nodup) := by
  refine ⟨?_, ?_, ?_⟩
  · rw [selectReviewCards, getRandomSubset, List.length_take,
      hperm.length_eq, min_assoc, min_self]
  · exact ((List.take_sublist _ _).subperm).trans hperm.subperm
  · intro hnd
    exact ((List.take_sublist _ _)).nodup (hperm.nodup_iff.mpr hnd)

/-- A never-reviewed card that is nevertheless not due (nextReview 2). -/
def mkPendingCard (cardId : String) : AnkiCard :=
  { id := cardId
    front := cardId
    back := cardId
    sourceFile := "s"
    position := 0
    lastReviewed := none
    nextReview := some 2
    easeFactor := none
    interval := none
    reviewCount := none }

/-- Five never-reviewed cards, none due at time 1. -/
def wCards : List AnkiCard :=
  [mkPendingCard "a", mkPendingCard "b", mkPendingCard "c",
    mkPendingCard "d", mkPendingCard "e"]

/-- The settings of the selector example: cardsPerSession 3,
newCardsPerDay 10. -/
def wSettings : AnkiPluginSettings :=
  { DEFAULT_SETTINGS with cardsPerSession := 3 }

lemma reviewPool_wCards : reviewPool wCards 1 wSettings = wCards := by
  have h20 : ¬((2 : ℚ) = 0) := by norm_num
  have h21 : ¬((2 : ℚ) ≤ 1) := by norm_num
  simp [reviewPool, wCards, mkPendingCard, wSettings, DEFAULT_SETTINGS,
    List.filter, h20, h21]

theorem reviewCards_selection_witness :
    (selectReviewCards (reviewPool wCards 1 wSettings)
      (reviewPool wCards 1 wSettings) wSettings).length = 3 ∧
    List.Subperm
      (selectReviewCards (reviewPool wCards 1 wSettings)
        (reviewPool wCards 1 wSettings) wSettings)
      (reviewPool wCards 1 wSettings) ∧
    (selectReviewCards (reviewPool wCards 1 wSettings)
      (reviewPool wCards 1 wSettings) wSettings).Nodup := by
  have h := reviewCards_selection wCards 1 wSettings
    (reviewPool wCards 1 wSettings) (List.Perm.refl _)
    (by rw [reviewPool_wCards]; simp [wCards])
  refine ⟨?_, h.2.1, ?_⟩
  · rw [h.1, reviewPool_wCards]
    rfl
  · apply h.2.2
    rw [reviewPool_wCards]
    decide

/- ——— C10: updateCardAfterReview writes back by id lookup. ——— -/

/-- Array.prototype.findIndex with the id predicate of
updateCardAfterReview: the index of the first card with the given id
(none for the -1 case). -/
def findIndexById : List AnkiCard → String → Option ℕ
  | [], _ => none
  | c :: t, cardId =>
    if c.id == cardId then some 0
    else (findIndexById t cardId).map (· + 1)

/-- updateCardAfterReview from main.ts: run the scheduler on the card, look
the card's id up in the loaded store, and — only when found — replace that
entry and save.  The Bool records whether a save was performed; the list is
the store's card list afterwards. -/
def updateCardAfterReview (storeCards : List AnkiCard) (card : AnkiCard)
    (difficultyRating : ℤ) (settings : AnkiPluginSettings) (now : ℚ) :
    Bool × List AnkiCard :=
  let updated := calculateNextReview card difficultyRating settings now
  match findIndexById storeCards card.id with
  | none => (false, storeCards)
  | some i => (true, storeCards.set i updated)

lemma findIndexById_eq_none (store : List AnkiCard) (cardId : String)
    (h : ∀ c ∈ store, c.id ≠ cardId) : findIndexById store cardId = none := by
  induction store with
  | nil => rfl
  | cons c t ih =>
    have hc : ¬(c.id == cardId) = true := by
      simp only [beq_iff_eq]
      exact h c (List.mem_cons_self _ _)
    simp only [findIndexById, if_neg hc]
    rw [ih fun x hx => h x (List.mem_cons_of_mem _ hx)]
    rfl

lemma findIndexById_eq_some (store : List AnkiCard) (cardId : String)
    (h : ∃ c ∈ store, c.id = cardId) :
    ∃ i e, findIndexById store cardId = some i ∧ store[i]? = some e ∧
      e.id = cardId := by
  induction store with
  | nil => obtain ⟨c, hc, _⟩ := h; exact absurd hc (List.not_mem_nil c)
  | cons c t ih =>
    by_cases hc : (c.id == cardId) = true
    · simp only [beq_iff_eq] at hc
      exact ⟨0, c, by simp [findIndexById, hc], by simp, hc⟩
    · have hcn : c.id ≠ cardId := by simpa [beq_iff_eq] using hc
      obtain ⟨c0, hc0, hid0⟩ := h
      rcases List.mem_cons.mp hc0 with rfl | hmem
      · exact absurd hid0 hcn
      · obtain ⟨i, e, hfind, hget, hide⟩ := ih ⟨c0, hmem, hid0⟩
        refine ⟨i + 1, e, ?_, ?_, hide⟩
        · simp [findIndexById, hc, hfind]
        · simpa using hget

/-- C10: when the reviewed card's id matches no card of the loaded store,
no save happens and the store's card list is unchanged; when a card with
that id exists, the save replaces exactly the first matching entry with the
scheduler's output and leaves every other entry untouched. -/
theorem updateCardAfterReview_writeback (store : List AnkiCard)
    (card : AnkiCard) (r : ℤ) (s : AnkiPluginSettings) (now : ℚ) :
    ((∀ c ∈ store, c.id ≠ card.id) →
      updateCardAfterReview store card r s now = (false, store)) ∧
    ((∃ c ∈ store, c.id = card.id) →
      ∃ i e, store[i]? = some e ∧ e.id = card.id ∧
        updateCardAfterReview store card r s now =
          (true, store.set i (calculateNextReview card r s now)) ∧
        ∀ j, j ≠ i →
          (store.set i (calculateNextReview card r s now))[j]? =
            store[j]?) := by
  constructor
  · intro h
    simp only [updateCardAfterReview]
    rw [findIndexById_eq_none store card.id h]
  · intro h
    obtain ⟨i, e, hfind, hget, hide⟩ := findIndexById_eq_some store card.id h
    refine ⟨i, e, hget, hide, ?_, ?_⟩
    · simp only [updateCardAfterReview]
      rw [hfind]
    · intro j hji
      exact List.getElem?_set_ne (fun hij => hji hij.symm)

/-- A minimal stored card. -/
def plainCard (cardId : String) : AnkiCard :=
  { id := cardId
    front := ""
    back := ""
    sourceFile := ""
    position := 0
    lastReviewed := none
    nextReview := none
    easeFactor := none
    interval := none
    reviewCount := none }

theorem updateCardAfterReview_writeback_witness :
    updateCardAfterReview [plainCard "x"] (plainCard "y") 2
      DEFAULT_SETTINGS 0 = (false, [plainCard "x"]) ∧
    (∃ i e, ([plainCard "x"] : List AnkiCard)[i]? = some e ∧
      e.id = (plainCard "x").id ∧
      updateCardAfterReview [plainCard "x"] (plainCard "x") 2
        DEFAULT_SETTINGS 0 =
        (true, [plainCard "x"].set i
          (calculateNextReview (plainCard "x") 2 DEFAULT_SETTINGS 0)) ∧
      ∀ j, j ≠ i →
        ([plainCard "x"].set i
          (calculateNextReview (plainCard "x") 2 DEFAULT_SETTINGS 0))[j]? =
          ([plainCard "x"] : List AnkiCard)[j]?) :=
  ⟨(updateCardAfterReview_writeback [plainCard "x"] (plainCard "y") 2
      DEFAULT_SETTINGS 0).1 (by decide),
    (updateCardAfterReview_writeback [plainCard "x"] (plainCard "x") 2
      DEFAULT_SETTINGS 0).2
      ⟨plainCard "x", List.mem_singleton.mpr rfl, rfl⟩⟩

end AnkiCards
